import Mathlib

/-!
Verification of the pN/pS variant-ingestion pipeline of `mgkit/workflow/pnps_gen.py`.

The Python functions under scrutiny (`read_gene_map_default`,
`read_gene_map_two_columns`, `init_count_set`, `init_count_set_sample_files`,
`check_snp_in_set`, `parse_vcf`, the `vcf` command validation and the `vcf_alt`
multi-file loop) are embedded as Lean functions below.  Python dictionaries are
modelled as insertion-ordered association lists, floats as rationals, and
exceptions (KeyError, IndexError, `exit_script`) as `Option`/`Except` failure
values.  The classes `GeneSNP` and `Annotation` (here `Annot`) live in modules
of the repository that are outside the sources at hand, so they are modelled
from the specification; each such definition carries a doc comment saying so.
-/

/-! ## Association lists with Python dict semantics -/

/-- Lookup of a key in an insertion-ordered association list (Python dict read). -/
def alistGet {β : Type} : List (String × β) → String → Option β
  | [], _ => none
  | (k', v) :: rest, k => if k = k' then some v else alistGet rest k

/-- Assignment in an insertion-ordered association list: replaces the value in
place when the key is present, appends at the end otherwise (Python dict write). -/
def alistSet {β : Type} : List (String × β) → String → β → List (String × β)
  | [], k, v => [(k, v)]
  | (k', v') :: rest, k, v =>
    if k = k' then (k, v) :: rest else (k', v') :: alistSet rest k v

/-! ## Data model, modelled from the spec -/

/-- Modelled from the spec: index of a nucleotide among A, C, G, T; `none` for
any other character (ambiguous base). -/
def baseIdx : Char → Option Nat
  | 'A' => some 0
  | 'C' => some 1
  | 'G' => some 2
  | 'T' => some 3
  | _ => none

/-- Modelled from the spec: the standard genetic code as a 64-character table in
lexicographic A, C, G, T order of the codon; stop codons are the character X. -/
def codonTable : List Char :=
  ("KNKNTTTTRSRSIIMIQHQHPPPPRRRRLLLLEDEDAAAAGGGGVVVVXYXYSSSSXCWCLFLF").toList

/-- Modelled from the spec: translation of one codon to an amino acid; `none`
when a base is ambiguous (not one of A, C, G, T). -/
def translateCodon (c1 c2 c3 : Char) : Option Char :=
  match baseIdx c1, baseIdx c2, baseIdx c3 with
  | some i, some j, some k => codonTable.get? (16 * i + 4 * j + k)
  | _, _, _ => none

/-- Modelled from the spec: one coding feature on a reference sequence
(the repository class `mgkit.io.gff.Annotation`): unique id, gene id,
reference-sequence id, start and stop (0-based half-open), reading frame,
taxon id, per-sample coverage, feature type, and the expected synonymous and
nonsynonymous site counts attached once from the reference sequence. -/
structure Annot where
  uid : String
  gene_id : String
  seq_id : String
  start : Nat
  stop : Nat
  frame : Nat
  taxon_id : Nat
  sample_coverage : List (String × ℚ)
  feat_type : String
  exp_syn : Nat := 0
  exp_nonsyn : Nat := 0
deriving DecidableEq

/-- Modelled from the spec: the Python membership test `pos in annotation`,
true when the position falls within the coordinate span of the feature. -/
def Annot.posIn (a : Annot) (pos : Nat) : Bool :=
  decide (a.start ≤ pos) && decide (pos < a.stop)

/-- Modelled from the spec: `Annotation.get_relative_pos`, the position of the
variant relative to the start of the feature. -/
def Annot.get_relative_pos (a : Annot) (pos : Nat) : Nat :=
  pos - a.start

/-- Modelled from the spec: start of the codon containing `pos`, derived from
the feature start and its reading frame. -/
def Annot.codonStart (a : Annot) (pos : Nat) : Nat :=
  a.start + a.frame + ((pos - (a.start + a.frame)) / 3) * 3

/-- Modelled from the spec: `Annotation.is_syn` in non-strict mode, true when
translating the codon at `pos` in original and substituted form yields the
same amino acid; any ambiguous or incomplete codon, out-of-frame position or
non-point change classifies as nonsynonymous (`false`). -/
def Annot.is_syn (a : Annot) (seq : List Char) (pos : Nat) (change : String) : Bool :=
  if pos < a.start + a.frame then false
  else
    let cs := a.codonStart pos
    match seq.get? cs, seq.get? (cs + 1), seq.get? (cs + 2), change.toList with
    | some c1, some c2, some c3, [cb] =>
      let idx := pos - cs
      let orig := translateCodon c1 c2 c3
      let sub := translateCodon (if idx = 0 then cb else c1)
                   (if idx = 1 then cb else c2) (if idx = 2 then cb else c3)
      match orig, sub with
      | some aa1, some aa2 => aa1 = aa2
      | _, _ => false
    | _, _, _, _ => false

/-- Modelled from the spec: `Annotation.add_exp_syn_count`, attaching to the
feature the expected synonymous and nonsynonymous site counts derived from the
reference sequence by codon degeneracy: over every position of the span and
every alternative base, count the substitutions classified synonymous and
nonsynonymous respectively. -/
def Annot.add_exp_syn_count (a : Annot) (seq : List Char) : Annot :=
  let positions := (List.range (a.stop - a.start)).map (fun i => a.start + i)
  let changes := positions.flatMap
    (fun p => ((['A', 'C', 'G', 'T'].filter (fun b => seq.get? p != some b)).map
      (fun b => (p, b))))
  let syn_n := (changes.filter (fun pc => a.is_syn seq pc.1 (String.mk [pc.2]))).length
  { a with exp_syn := syn_n, exp_nonsyn := changes.length - syn_n }

/-- Modelled from the spec: classification tag of an observed substitution
(the repository enum `mgkit.snps.classes.SNPType`). -/
inductive SNPType where
  | syn : SNPType
  | nonsyn : SNPType
deriving DecidableEq

/-- Modelled from the spec: the per (sample, feature) aggregate record
`mgkit.snps.classes.GeneSNP`: feature uid, gene id, taxon id, expected
synonymous and nonsynonymous site counts, observed coverage, and two growable
collections of observed substitution events (position and allele). -/
structure GeneSNP where
  uid : String
  gene_id : String
  taxon_id : Nat
  exp_syn : Nat
  exp_nonsyn : Nat
  coverage : ℚ
  syn_events : List (Nat × String) := []
  nonsyn_events : List (Nat × String) := []
deriving DecidableEq

/-- Modelled from the spec: `GeneSNP.add_snp` appends one event, keyed by the
relative position and the allele, to the synonymous or the nonsynonymous
collection according to the classification. -/
def GeneSNP.add_snp (g : GeneSNP) (rel_pos : Nat) (change : String) (t : SNPType) : GeneSNP :=
  match t with
  | SNPType.syn => { g with syn_events := g.syn_events ++ [(rel_pos, change)] }
  | SNPType.nonsyn => { g with nonsyn_events := g.nonsyn_events ++ [(rel_pos, change)] }

/-- The SNP aggregation table: sample id to feature uid to GeneSNP record,
both levels insertion-ordered dictionaries. -/
def SnpData : Type := List (String × List (String × GeneSNP))

instance : DecidableEq SnpData := by
  unfold SnpData
  infer_instance

/-- Lookup of the GeneSNP record of a (sample, feature uid) pair. -/
def lookup2 (d : SnpData) (s uid : String) : Option GeneSNP :=
  match alistGet d s with
  | none => none
  | some inner => alistGet inner uid

/-- Number of recorded substitution events of one GeneSNP record. -/
def event_count (g : GeneSNP) : Nat :=
  g.syn_events.length + g.nonsyn_events.length

/-- Total number of recorded substitution events over the whole table. -/
def total_events (d : SnpData) : Nat :=
  (d.map (fun p => ((p.2.map (fun q => event_count q.2)).sum))).sum

/-- The pair of expected-site counts of one GeneSNP record. -/
def exp_fields (g : GeneSNP) : Nat × Nat :=
  (g.exp_syn, g.exp_nonsyn)

/-! ## Gene-id remap tables (`read_gene_map_default`, `read_gene_map_two_columns`) -/

/-- A gene map: insertion-ordered dictionary from gene id to a set of external ids. -/
abbrev GeneMap : Type := List (String × Finset String)

/-- Loop of `read_gene_map_default`: each row of the one-row-per-gene format is
the gene id followed by the list of tab-separated external ids; the row assigns
the set of those ids to the gene. -/
def read_gene_map_default_aux (d : GeneMap) : List (String × List String) → GeneMap
  | [] => d
  | (g, vs) :: rest => read_gene_map_default_aux (alistSet d g vs.toFinset) rest

/-- Embeds `read_gene_map_default` (pnps_gen.py lines 212-220); a row is given
as the already-split fields: head field and remaining fields. -/
def read_gene_map_default (rows : List (String × List String)) : GeneMap :=
  read_gene_map_default_aux [] rows

/-- Loop of `read_gene_map_two_columns`: each row is one (gene id, external id)
pair; the external id is added to the set of the gene, created on first sight. -/
def read_gene_map_two_columns_aux (d : GeneMap) : List (String × String) → GeneMap
  | [] => d
  | (k, v) :: rest =>
    match alistGet d k with
    | some s => read_gene_map_two_columns_aux (alistSet d k (insert v s)) rest
    | none => read_gene_map_two_columns_aux (alistSet d k {v}) rest

/-- Embeds `read_gene_map_two_columns` (pnps_gen.py lines 223-234); a row is
given as the already-split pair of exactly two fields. -/
def read_gene_map_two_columns (rows : List (String × String)) : GeneMap :=
  read_gene_map_two_columns_aux [] rows

/-- The expansion of a one-row-per-gene table into the two-column repeated-key
format: one (gene id, external id) pair per row, in row order. -/
def expand_rows : List (String × List String) → List (String × String)
  | [] => []
  | (g, vs) :: rest => vs.map (fun v => (g, v)) ++ expand_rows rest

/-! ## Table initialization (`init_count_set`, `init_count_set_sample_files`) -/

/-- Fresh GeneSNP record created by the init functions from a feature and a
coverage value. -/
def mkGeneSNP (a : Annot) (cov : ℚ) : GeneSNP :=
  { uid := a.uid, gene_id := a.gene_id, taxon_id := a.taxon_id,
    exp_syn := a.exp_syn, exp_nonsyn := a.exp_nonsyn, coverage := cov }

/-- Inner loop of `init_count_set`: one GeneSNP per sample of the per-sample
coverage of the feature; a sample absent from the table is a KeyError (`none`). -/
def init_add_samples (d : SnpData) (covs : List (String × ℚ)) (a : Annot) : Option SnpData :=
  match covs with
  | [] => some d
  | (s, cov) :: rest =>
    match alistGet d s with
    | none => none
    | some inner => init_add_samples (alistSet d s (alistSet inner a.uid (mkGeneSNP a cov))) rest a

/-- Outer loop of `init_count_set`: attaches the expected-site counts to each
feature from its reference sequence (KeyError when the sequence is missing)
and creates the per-sample records. -/
def init_count_set_loop (anns : List Annot) (seqs : List (String × List Char)) (d : SnpData) : Option SnpData :=
  match anns with
  | [] => some d
  | a :: rest =>
    match alistGet seqs a.seq_id with
    | none => none
    | some seq =>
      let a' := a.add_exp_syn_count seq
      match init_add_samples d a'.sample_coverage a' with
      | none => none
      | some d' => init_count_set_loop rest seqs d'

/-- Embeds `init_count_set` (pnps_gen.py lines 351-379): the sample list comes
from the coverage keys of the first feature (IndexError, hence `none`, on an
empty list), and each feature creates one record per sample of its own
coverage map. -/
def init_count_set (anns : List Annot) (seqs : List (String × List Char)) : Option SnpData :=
  match anns with
  | [] => none
  | a0 :: _ =>
    let samples := a0.sample_coverage.map Prod.fst
    init_count_set_loop anns seqs (samples.map (fun s => (s, [])))

/-- First loop of `init_count_set_sample_files`: attaches the expected-site
counts to every feature of the flattened list. -/
def add_exp_all (anns : List Annot) (seqs : List (String × List Char)) : Option (List Annot) :=
  match anns with
  | [] => some []
  | a :: rest =>
    match alistGet seqs a.seq_id with
    | none => none
    | some seq =>
      match add_exp_all rest seqs with
      | none => none
      | some rest' => some (a.add_exp_syn_count seq :: rest')

/-- Embeds `init_count_set_sample_files` (pnps_gen.py lines 382-417): the
samples come from the coverage-file mapping, the grouped annotations are
flattened, and every (sample, feature) pair receives a record whose coverage
is looked up in the per-sample coverage table, defaulting to zero. -/
def init_count_set_sample_files (grouped : List (String × List Annot))
    (seqs : List (String × List Char))
    (cov_files : List (String × List (String × ℚ))) : Option SnpData :=
  let anns := (grouped.map Prod.snd).flatten
  match add_exp_all anns seqs with
  | none => none
  | some anns' =>
    some (cov_files.map (fun p =>
      (p.1, anns'.foldl (fun inner a =>
        alistSet inner a.uid (mkGeneSNP a ((alistGet p.2 a.uid).getD 0))) [])))

/-! ## Variant ingestion (`check_snp_in_set`, `parse_vcf`) -/

/-- One `snp_data[sample][uid].add_snp(...)` call: `none` is the KeyError on a
missing sample or missing uid. -/
def snpDataAddSnp (d : SnpData) (s uid : String) (rel_pos : Nat) (change : String)
    (t : SNPType) : Option SnpData :=
  match alistGet d s with
  | none => none
  | some inner =>
    match alistGet inner uid with
    | none => none
    | some g => some (alistSet d s (alistSet inner uid (g.add_snp rel_pos change t)))

/-- Inner loop of `check_snp_in_set` over the samples carrying the allele. -/
def add_snp_to_samples (samples : List String) (d : SnpData) (uid : String)
    (rel_pos : Nat) (change : String) (t : SNPType) : Option SnpData :=
  match samples with
  | [] => some d
  | s :: rest =>
    match snpDataAddSnp d s uid rel_pos change t with
    | none => none
    | some d' => add_snp_to_samples rest d' uid rel_pos change t

/-- Embeds `check_snp_in_set` (pnps_gen.py lines 419-441): for every feature
whose span holds the position, classify the change as synonymous or
nonsynonymous (non-strict) and append one event per carrying sample, keyed by
the position relative to the feature start. -/
def check_snp_in_set (samples : List String) (d : SnpData) (pos : Nat) (change : String)
    (anns : List Annot) (seq : List Char) : Option SnpData :=
  match anns with
  | [] => some d
  | a :: rest =>
    if a.posIn pos then
      let t := if a.is_syn seq pos change then SNPType.syn else SNPType.nonsyn
      match add_snp_to_samples samples d a.uid (a.get_relative_pos pos) change t with
      | none => none
      | some d' => check_snp_in_set samples d' pos change rest seq
    else check_snp_in_set samples d pos change rest seq

/-- Per-sample genotype call of a VCF record: VCF sample name and called
bases (`none` models a missing call, GT equal to dot). -/
structure SampleInfo where
  sample : String
  gt_bases : Option String
deriving DecidableEq

/-- One VCF variant record with the fields `parse_vcf` reads. -/
structure VcfRecord where
  CHROM : String
  POS : Nat
  REF : String
  ALT : List String
  aaf : List ℚ
  QUAL : ℚ
  DP : Nat
  is_indel : Bool
  samples : List SampleInfo
deriving DecidableEq

/-- State of one `parse_vcf` run: the aggregation table and the five counters. -/
structure ParseState where
  snp_data : SnpData
  accepted_snps : Nat
  skip_qual : Nat
  skip_dp : Nat
  skip_af : Nat
  skip_indels : Nat
deriving DecidableEq

/-- Python `dict(zip(...))` over pairs: later duplicate keys overwrite. -/
def dict_from_pairs (ps : List (String × ℚ)) : List (String × ℚ) :=
  ps.foldl (fun d p => alistSet d p.1 p.2) []

/-- Python set add, modelled on insertion-ordered lists without duplicates. -/
def set_add (xs : List String) (x : String) : List String :=
  if x ∈ xs then xs else xs ++ [x]

/-- Update of `alleles_sample[change]`: `none` is the KeyError on a change that
is no key of the dictionary. -/
def alleles_sample_add (als : List (String × List String)) (change sid : String) :
    Option (List (String × List String)) :=
  match alistGet als change with
  | none => none
  | some ss => some (alistSet als change (set_add ss sid))

/-- Python `gt.replace("!", "/")` on the character list of the genotype string. -/
def replace_bang (l : List Char) : List Char :=
  l.map (fun c => if c = '!' then '/' else c)

/-- Split of a character list at every slash (Python `str.split` on a single
slash, which keeps empty parts). -/
def split_slash : List Char → List (List Char)
  | [] => [[]]
  | c :: rest =>
    match split_slash rest with
    | [] => [[]]
    | g :: gs => if c = '/' then [] :: g :: gs else (c :: g) :: gs

/-- The genotype parts of one call: replace exclamation marks by slashes, then
split at slashes; a string without a slash yields itself as the single part. -/
def gt_parts (gt : String) : List String :=
  (split_slash (replace_bang gt.toList)).map (fun l => String.mk l)

/-- Loop over the parts of one genotype call (pnps_gen.py lines 496-503): a
part equal to the reference is ignored, a part whose allele frequency is below
the minimum is ignored, any other part records the analysis sample id (mapped
through `sample_ids`, KeyError when absent) as carrying that allele. -/
def record_changes (ref : String) (freqs : List (String × ℚ)) (min_freq : ℚ)
    (sample_ids : List (String × String)) (vcf_sample : String) :
    List String → List (String × List String) → Option (List (String × List String))
  | [], als => some als
  | change :: rest, als =>
    if change = ref then record_changes ref freqs min_freq sample_ids vcf_sample rest als
    else if (alistGet freqs change).getD 0 < min_freq then
      record_changes ref freqs min_freq sample_ids vcf_sample rest als
    else
      match alistGet sample_ids vcf_sample with
      | none => none
      | some sid =>
        match alleles_sample_add als change sid with
        | none => none
        | some als' => record_changes ref freqs min_freq sample_ids vcf_sample rest als'

/-- Loop over the sample calls of one record (pnps_gen.py lines 482-503):
calls without bases are skipped, the others contribute their genotype parts. -/
def record_samples (ref : String) (freqs : List (String × ℚ)) (min_freq : ℚ)
    (sample_ids : List (String × String)) :
    List SampleInfo → List (String × List String) → Option (List (String × List String))
  | [], als => some als
  | si :: rest, als =>
    match si.gt_bases with
    | none => record_samples ref freqs min_freq sample_ids rest als
    | some gt =>
      match record_changes ref freqs min_freq sample_ids si.sample (gt_parts gt) als with
      | none => none
      | some als' => record_samples ref freqs min_freq sample_ids rest als'

/-- Loop over the accepted alleles of one record (pnps_gen.py lines 508-513):
every allele carried by at least one sample is checked against the features
and counted as one accepted SNP. -/
def process_alleles (als : List (String × List String)) (d : SnpData) (accepted : Nat)
    (pos : Nat) (anns : List Annot) (seq : List Char) : Option (SnpData × Nat) :=
  match als with
  | [] => some (d, accepted)
  | (change, samples) :: rest =>
    if samples = [] then process_alleles rest d accepted pos anns seq
    else
      match check_snp_in_set samples d pos change anns seq with
      | none => none
      | some d' => process_alleles rest d' (accepted + 1) pos anns seq

/-- One iteration of the `parse_vcf` record loop (pnps_gen.py lines 458-513):
skip silently on an unannotated sequence, skip silently on an indel (the indel
counter is declared but never incremented by the source), count and skip on
low depth and low quality, then collect per-allele carrying samples and feed
the accepted alleles to `check_snp_in_set`. -/
def process_record (min_qual : ℚ) (min_reads : Nat) (min_freq : ℚ)
    (sample_ids : List (String × String)) (anns_map : List (String × List Annot))
    (seqs : List (String × List Char)) (st : ParseState) (rec : VcfRecord) :
    Option ParseState :=
  if (alistGet anns_map rec.CHROM).isNone then some st
  else if rec.is_indel then some st
  else if rec.DP < min_reads then some { st with skip_dp := st.skip_dp + 1 }
  else if rec.QUAL < min_qual then some { st with skip_qual := st.skip_qual + 1 }
  else
    let freqs := dict_from_pairs (rec.ALT.zip rec.aaf)
    let als0 := rec.ALT.foldl (fun d al => alistSet d al []) []
    match record_samples rec.REF freqs min_freq sample_ids rec.samples als0 with
    | none => none
    | some als =>
      match alistGet seqs rec.CHROM with
      | none => none
      | some seq =>
        match alistGet anns_map rec.CHROM with
        | none => none
        | some ann_seq =>
          match process_alleles als st.snp_data st.accepted_snps rec.POS ann_seq seq with
          | none => none
          | some (d', acc') => some { st with snp_data := d', accepted_snps := acc' }

/-- Embeds `parse_vcf` (pnps_gen.py lines 444-527) as a fold of
`process_record` over the record stream; `none` models an uncaught exception,
and the returned state carries the table and the counter tuple the source
returns. -/
def parse_vcf (min_qual : ℚ) (min_reads : Nat) (min_freq : ℚ)
    (sample_ids : List (String × String)) (anns_map : List (String × List Annot))
    (seqs : List (String × List Char)) (st : ParseState) :
    List VcfRecord → Option ParseState
  | [] => some st
  | rec :: rest =>
    match process_record min_qual min_reads min_freq sample_ids anns_map seqs st rec with
    | none => none
    | some st' => parse_vcf min_qual min_reads min_freq sample_ids anns_map seqs st' rest

/-- Counter tuple reported by the commands: accepted, qual, depth, frequency,
indel counts. -/
def Counters : Type := Nat × Nat × Nat × Nat × Nat

instance : DecidableEq Counters := by
  unfold Counters
  infer_instance

/-- Embeds the multi-file loop of `parse_alt_command` (pnps_gen.py lines
709-722): the table is threaded through every file, while the loop rebinds
the counter variables to the per-file results of `parse_vcf` and then adds
each to itself, so the accumulator of the previous files is discarded. -/
def parse_alt_loop (min_qual : ℚ) (min_reads : Nat) (min_freq : ℚ)
    (sample_ids : List (String × String)) (anns_map : List (String × List Annot))
    (seqs : List (String × List Char)) (d : SnpData) (counters : Counters) :
    List (List VcfRecord) → Option (SnpData × Counters)
  | [] => some (d, counters)
  | file :: rest =>
    match parse_vcf min_qual min_reads min_freq sample_ids anns_map seqs
        { snp_data := d, accepted_snps := 0, skip_qual := 0, skip_dp := 0,
          skip_af := 0, skip_indels := 0 } file with
    | none => none
    | some st =>
      parse_alt_loop min_qual min_reads min_freq sample_ids anns_map seqs st.snp_data
        (st.accepted_snps + st.accepted_snps, st.skip_qual + st.skip_qual,
         st.skip_dp + st.skip_dp, st.skip_af + st.skip_af,
         st.skip_indels + st.skip_indels) rest

/-! ## Sample validation of the `vcf` command (`parse_command`) -/

/-- Outcome of an aborted `vcf` command run: `exit_script` carries the message
and the exit status, `py_error` models an uncaught Python exception. -/
inductive CmdError where
  | exit_script : String → Nat → CmdError
  | py_error : CmdError
deriving DecidableEq

deriving instance DecidableEq for Except

/-- Boolean set equality of two name lists (Python `set(a) != set(b)` test). -/
def same_set (xs ys : List String) : Bool :=
  xs.all (fun x => ys.contains x) && ys.all (fun y => xs.contains y)

/-- Annotation-reading loop of `parse_command` (pnps_gen.py lines 580-596):
keeps the features of the requested type and compares the coverage sample
names of the first kept feature with the supplied sample list, aborting with
exit status 2 on a mismatch; later features are not checked. -/
def load_ann_loop (feature : String) (sample_ids : List String) :
    List Annot → Bool → List Annot → Except CmdError (List Annot)
  | [], _, acc => Except.ok acc
  | a :: rest, test_names, acc =>
    if a.feat_type ≠ feature then load_ann_loop feature sample_ids rest test_names acc
    else
      if test_names then
        if same_set (a.sample_coverage.map Prod.fst) sample_ids then
          load_ann_loop feature sample_ids rest false (acc ++ [a])
        else Except.error (CmdError.exit_script "Sample names are wrong" 2)
      else load_ann_loop feature sample_ids rest test_names (acc ++ [a])

/-- Embeds the validation prefix of `parse_command` (pnps_gen.py lines
571-601): the VCF sample list is compared with the supplied one by length
only (exit status 1), the features are read with the first-feature name check,
and the coverage names of the first feature are compared once more (exit
status 1); an empty feature list is an IndexError. -/
def parse_command_checks (vcf_samples : List String) (sample_ids : List String)
    (anns : List Annot) (feature : String) : Except CmdError (List Annot) :=
  if vcf_samples.length ≠ sample_ids.length then
    Except.error (CmdError.exit_script "The number of sample names is wrong" 1)
  else
    match load_ann_loop feature sample_ids anns true [] with
    | Except.error e => Except.error e
    | Except.ok kept =>
      match kept with
      | [] => Except.error CmdError.py_error
      | a0 :: rest =>
        if same_set (a0.sample_coverage.map Prod.fst) sample_ids then
          Except.ok (a0 :: rest)
        else Except.error (CmdError.exit_script "The number of sample names is wrong" 1)

/-! ## Concrete fixtures used by the witness theorems -/

/-- A small coding feature on sequence c, covered by samples s1 and s2. -/
def fixAnn : Annot :=
  { uid := "u1", gene_id := "g1", seq_id := "c", start := 0, stop := 6, frame := 0,
    taxon_id := 2, sample_coverage := [("s1", 5), ("s2", 3)], feat_type := "CDS" }

/-- A second feature with an empty span, covered by sample s1 only. -/
def fixAnn2 : Annot :=
  { uid := "u2", gene_id := "g2", seq_id := "c", start := 10, stop := 10, frame := 0,
    taxon_id := 2, sample_coverage := [("s1", 2)], feat_type := "CDS" }

/-- The reference sequence of the fixture chromosome c. -/
def fixSeq : List Char := ("ATGAAA").toList

/-- A fixture table holding one record per sample for feature u1. -/
def fixD0 : SnpData :=
  [("s1", [("u1", mkGeneSNP (fixAnn.add_exp_syn_count fixSeq) 5)]),
   ("s2", [("u1", mkGeneSNP (fixAnn.add_exp_syn_count fixSeq) 3)])]

/-- VCF-name to analysis-name sample mapping of the fixtures. -/
def fixSids : List (String × String) := [("S1", "s1"), ("S2", "s2")]

/-- An accepted point variant at position 3 carried by sample S1. -/
def fixRec : VcfRecord :=
  { CHROM := "c", POS := 3, REF := "A", ALT := ["G"], aaf := [1], QUAL := 100,
    DP := 10, is_indel := false,
    samples := [⟨"S1", some "G"⟩, ⟨"S2", some "A"⟩] }

/-- An indel variant whose depth is also below the fixture minimum of 4. -/
def fixRecIndel : VcfRecord :=
  { CHROM := "c", POS := 3, REF := "A", ALT := ["G"], aaf := [1], QUAL := 100,
    DP := 3, is_indel := true,
    samples := [⟨"S1", some "G"⟩, ⟨"S2", none⟩] }

/-- A point variant whose only alternate allele has frequency zero, below any
positive minimum frequency. -/
def fixRecLowFreq : VcfRecord :=
  { CHROM := "c", POS := 3, REF := "A", ALT := ["T"], aaf := [0], QUAL := 100,
    DP := 10, is_indel := false,
    samples := [⟨"S1", some "T"⟩, ⟨"S2", some "A"⟩] }

/-- The fixture table after ingesting fixRec: sample s1 gains one
nonsynonymous event on feature u1. -/
def fixD1 : SnpData :=
  [("s1", [("u1", (mkGeneSNP (fixAnn.add_exp_syn_count fixSeq) 5).add_snp 3 "G" SNPType.nonsyn)]),
   ("s2", [("u1", mkGeneSNP (fixAnn.add_exp_syn_count fixSeq) 3)])]

/-- The table built by init_count_set from the two fixture features. -/
def fixD2 : SnpData :=
  [("s1", [("u1", mkGeneSNP (fixAnn.add_exp_syn_count fixSeq) 5),
           ("u2", mkGeneSNP (fixAnn2.add_exp_syn_count fixSeq) 2)]),
   ("s2", [("u1", mkGeneSNP (fixAnn.add_exp_syn_count fixSeq) 3)])]

/-- The initial parse state of the fixture run. -/
def fixSt0 : ParseState := ⟨fixD0, 0, 0, 0, 0, 0⟩

/-- The parse state after ingesting fixRec in the fixture run. -/
def fixSt1 : ParseState := ⟨fixD1, 1, 0, 0, 0, 0⟩

/-- Grouped fixture annotations keyed by reference sequence. -/
def fixGrouped : List (String × List Annot) := [("c", [fixAnn, fixAnn2])]

/-- Fixture coverage files: sample s1 covers u1 with depth 7, sample s2 has an
empty coverage file. -/
def fixCov : List (String × List (String × ℚ)) := [("s1", [("u1", 7)]), ("s2", [])]

/-- A non-indel variant whose depth 3 is below the fixture minimum of 4. -/
def fixRecLowDP : VcfRecord :=
  { CHROM := "c", POS := 3, REF := "A", ALT := ["G"], aaf := [1], QUAL := 100,
    DP := 3, is_indel := false,
    samples := [⟨"S1", some "G"⟩, ⟨"S2", some "A"⟩] }

/-- A variant on a reference sequence absent from the annotation mapping. -/
def fixRecOff : VcfRecord :=
  { CHROM := "z", POS := 3, REF := "A", ALT := ["G"], aaf := [1], QUAL := 100,
    DP := 10, is_indel := false,
    samples := [⟨"S1", some "G"⟩, ⟨"S2", some "A"⟩] }

/-- An empty parse state over an empty table. -/
def fixStE : ParseState := ⟨[], 0, 0, 0, 0, 0⟩

/-! ## Lemmas about association lists -/

theorem alistGet_alistSet {β : Type} (d : List (String × β)) (k k' : String) (v : β) :
    alistGet (alistSet d k v) k' = if k' = k then some v else alistGet d k' := by
  induction d with
  | nil =>
    by_cases h : k' = k <;> simp [alistSet, alistGet, h]
  | cons p rest ih =>
    obtain ⟨k₀, v₀⟩ := p
    by_cases hk : k = k₀
    · subst hk
      by_cases h : k' = k <;> simp [alistSet, alistGet, h]
    · by_cases h : k' = k₀
      · subst h
        simp [alistSet, alistGet, hk, Ne.symm hk]
      · simp [alistSet, alistGet, hk, h, ih]

theorem alistSet_of_get_none {β : Type} (d : List (String × β)) (k : String) (v : β)
    (h : alistGet d k = none) : alistSet d k v = d ++ [(k, v)] := by
  induction d with
  | nil => simp [alistSet]
  | cons p rest ih =>
    obtain ⟨k₀, v₀⟩ := p
    by_cases hk : k = k₀
    · subst hk
      simp [alistGet] at h
    · simp [alistGet, hk] at h
      simp [alistSet, hk, ih h]

theorem alistGet_append_right {β : Type} (d d₂ : List (String × β)) (k : String)
    (h : alistGet d k = none) : alistGet (d ++ d₂) k = alistGet d₂ k := by
  induction d with
  | nil => simp
  | cons p rest ih =>
    obtain ⟨k₀, v₀⟩ := p
    by_cases hk : k = k₀
    · subst hk
      simp [alistGet] at h
    · simp [alistGet, hk] at h ⊢
      exact ih h

/-- Weighted sum of the values of an association list, the measure over which
the event-count bookkeeping is done. -/
def alist_wsum {β : Type} (m : β → Nat) (d : List (String × β)) : Nat :=
  (d.map (fun p => m p.2)).sum

theorem alist_wsum_alistSet {β : Type} (m : β → Nat) (d : List (String × β))
    (k : String) (v v' : β) (h : alistGet d k = some v) :
    alist_wsum m (alistSet d k v') + m v = alist_wsum m d + m v' := by
  induction d with
  | nil => simp [alistGet] at h
  | cons p rest ih =>
    obtain ⟨k₀, v₀⟩ := p
    by_cases hk : k = k₀
    · subst hk
      simp [alistGet] at h
      subst h
      simp [alistSet, alist_wsum]
      ring
    · simp [alistGet, hk] at h
      have := ih h
      simp [alistSet, hk, alist_wsum] at this ⊢
      omega

/-! ## Lemmas about single add_snp updates of the table -/

theorem event_count_add_snp (g : GeneSNP) (rp : Nat) (ch : String) (t : SNPType) :
    event_count (g.add_snp rp ch t) = event_count g + 1 := by
  cases t <;> simp [GeneSNP.add_snp, event_count] <;> omega

theorem exp_fields_add_snp (g : GeneSNP) (rp : Nat) (ch : String) (t : SNPType) :
    exp_fields (g.add_snp rp ch t) = exp_fields g := by
  cases t <;> simp [GeneSNP.add_snp, exp_fields]

theorem total_events_eq_wsum (d : SnpData) :
    total_events d = alist_wsum (fun inner => alist_wsum event_count inner) d := by
  simp [total_events, alist_wsum]

theorem snpDataAddSnp_lookup2 (d : SnpData) (s uid : String) (rp : Nat) (ch : String)
    (t : SNPType) (d' : SnpData) (h : snpDataAddSnp d s uid rp ch t = some d') :
    ∀ s₂ u₂, lookup2 d' s₂ u₂ =
      if s₂ = s ∧ u₂ = uid then (lookup2 d s₂ u₂).map (fun g => g.add_snp rp ch t)
      else lookup2 d s₂ u₂ := by
  intro s₂ u₂
  unfold snpDataAddSnp at h
  cases hget : alistGet d s with
  | none => rw [hget] at h; exact absurd h (by simp)
  | some inner =>
    rw [hget] at h
    dsimp only at h
    cases hg : alistGet inner uid with
    | none => rw [hg] at h; exact absurd h (by simp)
    | some g =>
      rw [hg] at h
      simp at h
      subst h
      by_cases hs : s₂ = s
      · subst hs
        by_cases hu : u₂ = uid
        · subst hu
          simp [lookup2, alistGet_alistSet, hget, hg]
        · simp [lookup2, alistGet_alistSet, hget, hu]
      · simp [lookup2, alistGet_alistSet, hs]

theorem snpDataAddSnp_isSome (d : SnpData) (s uid : String) (rp : Nat) (ch : String)
    (t : SNPType) (h : (lookup2 d s uid).isSome) :
    ∃ d', snpDataAddSnp d s uid rp ch t = some d' := by
  unfold lookup2 at h
  unfold snpDataAddSnp
  cases hget : alistGet d s with
  | none => rw [hget] at h; simp at h
  | some inner =>
    rw [hget] at h
    dsimp only at h
    cases hg : alistGet inner uid with
    | none => rw [hg] at h; simp at h
    | some g =>
      refine ⟨alistSet d s (alistSet inner uid (g.add_snp rp ch t)), ?_⟩
      simp [snpDataAddSnp, hget, hg]

theorem snpDataAddSnp_total (d : SnpData) (s uid : String) (rp : Nat) (ch : String)
    (t : SNPType) (d' : SnpData) (h : snpDataAddSnp d s uid rp ch t = some d') :
    total_events d' = total_events d + 1 := by
  unfold snpDataAddSnp at h
  cases hget : alistGet d s with
  | none => rw [hget] at h; exact absurd h (by simp)
  | some inner =>
    rw [hget] at h
    dsimp only at h
    cases hg : alistGet inner uid with
    | none => rw [hg] at h; exact absurd h (by simp)
    | some g =>
      rw [hg] at h
      simp at h
      subst h
      have hinner : alist_wsum event_count (alistSet inner uid (g.add_snp rp ch t))
          + event_count g = alist_wsum event_count inner + event_count (g.add_snp rp ch t) :=
        alist_wsum_alistSet event_count inner uid g (g.add_snp rp ch t) hg
      have houter := alist_wsum_alistSet (fun inn => alist_wsum event_count inn) d s
        inner (alistSet inner uid (g.add_snp rp ch t)) hget
      dsimp only at houter
      rw [total_events_eq_wsum, total_events_eq_wsum]
      rw [event_count_add_snp] at hinner
      omega

/-! ## Characterization of the inner loops of check_snp_in_set -/

theorem add_snp_to_samples_char (samples : List String) (d : SnpData) (uid : String)
    (rp : Nat) (ch : String) (t : SNPType)
    (hnd : samples.Nodup) (hex : ∀ s ∈ samples, (lookup2 d s uid).isSome) :
    ∃ d', add_snp_to_samples samples d uid rp ch t = some d' ∧
      (∀ s₂ u₂, lookup2 d' s₂ u₂ =
        if s₂ ∈ samples ∧ u₂ = uid then (lookup2 d s₂ u₂).map (fun g => g.add_snp rp ch t)
        else lookup2 d s₂ u₂) ∧
      total_events d' = total_events d + samples.length := by
  induction samples generalizing d with
  | nil => exact ⟨d, rfl, by simp, by simp⟩
  | cons s rest ih =>
    obtain ⟨d₁, hd₁⟩ := snpDataAddSnp_isSome d s uid rp ch t (hex s (by simp))
    have hchar := snpDataAddSnp_lookup2 d s uid rp ch t d₁ hd₁
    have htot := snpDataAddSnp_total d s uid rp ch t d₁ hd₁
    have hnd' : rest.Nodup := (List.nodup_cons.mp hnd).2
    have hs_not : s ∉ rest := (List.nodup_cons.mp hnd).1
    have hex' : ∀ s₂ ∈ rest, (lookup2 d₁ s₂ uid).isSome := by
      intro s₂ hmem
      rw [hchar s₂ uid]
      by_cases hcase : s₂ = s
      · simp [hcase]
        exact hex s (by simp)
      · simp [hcase]
        exact hex s₂ (by simp [hmem])
    obtain ⟨d', hrun, hchar', htot'⟩ := ih d₁ hnd' hex'
    refine ⟨d', ?_, ?_, ?_⟩
    · simp [add_snp_to_samples, hd₁, hrun]
    · intro s₂ u₂
      rw [hchar' s₂ u₂, hchar s₂ u₂]
      by_cases hu : u₂ = uid
      · subst hu
        by_cases hs2 : s₂ = s
        · subst hs2
          simp [hs_not]
        · by_cases hr : s₂ ∈ rest <;> simp [hr, hs2]
      · simp [hu]
    · rw [htot', htot]
      simp
      omega

theorem check_snp_in_set_char (anns : List Annot) (samples : List String) (d : SnpData)
    (pos : Nat) (change : String) (seq : List Char)
    (hnd : (anns.map Annot.uid).Nodup) (hsam : samples.Nodup)
    (hex : ∀ s ∈ samples, ∀ a ∈ anns, a.posIn pos → (lookup2 d s a.uid).isSome) :
    ∃ d', check_snp_in_set samples d pos change anns seq = some d' ∧
      (∀ s ∈ samples, ∀ a ∈ anns, a.posIn pos →
        lookup2 d' s a.uid = (lookup2 d s a.uid).map
          (fun g => g.add_snp (a.get_relative_pos pos) change
            (if a.is_syn seq pos change then SNPType.syn else SNPType.nonsyn))) ∧
      (∀ s u, (s ∉ samples ∨ ∀ a ∈ anns, a.uid = u → ¬ a.posIn pos) →
        lookup2 d' s u = lookup2 d s u) ∧
      total_events d' = total_events d
        + samples.length * (anns.filter (fun a => a.posIn pos)).length := by
  induction anns generalizing d with
  | nil => exact ⟨d, rfl, by simp, by simp, by simp⟩
  | cons a rest ih =>
    have hnd' : (rest.map Annot.uid).Nodup := (List.nodup_cons.mp hnd).2
    have huid : a.uid ∉ rest.map Annot.uid := (List.nodup_cons.mp hnd).1
    by_cases hpos : a.posIn pos
    · obtain ⟨d₁, hd₁, hchar₁, htot₁⟩ := add_snp_to_samples_char samples d a.uid
        (a.get_relative_pos pos) change
        (if a.is_syn seq pos change then SNPType.syn else SNPType.nonsyn) hsam
        (fun s hs => hex s hs a (by simp) hpos)
      have hex' : ∀ s ∈ samples, ∀ b ∈ rest, b.posIn pos → (lookup2 d₁ s b.uid).isSome := by
        intro s hs b hb hbpos
        have hbuid : b.uid ≠ a.uid := by
          intro hEq
          exact huid (hEq ▸ List.mem_map_of_mem Annot.uid hb)
        rw [hchar₁ s b.uid]
        simp [hbuid]
        exact hex s hs b (by simp [hb]) hbpos
      obtain ⟨d', hrun, hchar', hunch', htot'⟩ := ih d₁ hnd' hex'
      refine ⟨d', ?_, ?_, ?_, ?_⟩
      · simp [check_snp_in_set, hpos, hd₁, hrun]
      · intro s hs b hb hbpos
        rcases List.mem_cons.mp hb with hba | hbr
        · subst hba
          have hrest_cond : ∀ c ∈ rest, c.uid = b.uid → ¬ c.posIn pos := by
            intro c hc hcEq
            exact absurd (hcEq ▸ List.mem_map_of_mem Annot.uid hc) huid
          rw [hunch' s b.uid (Or.inr hrest_cond), hchar₁ s b.uid]
          simp [hs]
        · have hbuid : b.uid ≠ a.uid := by
            intro hEq
            exact huid (hEq ▸ List.mem_map_of_mem Annot.uid hbr)
          rw [hchar' s hs b hbr hbpos, hchar₁ s b.uid]
          simp [hbuid]
      · intro s u hcond
        rcases hcond with hs | hall
        · rw [hunch' s u (Or.inl hs), hchar₁ s u]
          simp [hs]
        · have hau : a.uid ≠ u := by
            intro hEq
            exact hall a (by simp) hEq hpos
          have hrest_cond : ∀ c ∈ rest, c.uid = u → ¬ c.posIn pos := by
            intro c hc hcEq
            exact hall c (by simp [hc]) hcEq
          rw [hunch' s u (Or.inr hrest_cond), hchar₁ s u]
          simp [Ne.symm hau]
      · rw [htot', htot₁]
        simp [hpos, Nat.mul_add, Nat.mul_one]
        ring
    · have hex' : ∀ s ∈ samples, ∀ b ∈ rest, b.posIn pos → (lookup2 d s b.uid).isSome :=
        fun s hs b hb => hex s hs b (by simp [hb])
      obtain ⟨d', hrun, hchar', hunch', htot'⟩ := ih d hnd' hex'
      refine ⟨d', ?_, ?_, ?_, ?_⟩
      · simp [check_snp_in_set, hpos, hrun]
      · intro s hs b hb hbpos
        rcases List.mem_cons.mp hb with hba | hbr
        · subst hba
          exact absurd hbpos hpos
        · exact hchar' s hs b hbr hbpos
      · intro s u hcond
        rcases hcond with hs | hall
        · exact hunch' s u (Or.inl hs)
        · exact hunch' s u (Or.inr (fun c hc => hall c (by simp [hc])))
      · rw [htot']
        simp [hpos]

/-! ## Preservation of the expected-site counts through ingestion -/

theorem snpDataAddSnp_exp (d : SnpData) (s uid : String) (rp : Nat) (ch : String)
    (t : SNPType) (d' : SnpData) (h : snpDataAddSnp d s uid rp ch t = some d') :
    ∀ s₂ u₂, (lookup2 d' s₂ u₂).map exp_fields = (lookup2 d s₂ u₂).map exp_fields := by
  intro s₂ u₂
  rw [snpDataAddSnp_lookup2 d s uid rp ch t d' h s₂ u₂]
  by_cases hc : s₂ = s ∧ u₂ = uid
  · rw [if_pos hc]
    cases lookup2 d s₂ u₂ with
    | none => rfl
    | some g => simp [exp_fields_add_snp]
  · rw [if_neg hc]

theorem add_snp_to_samples_exp (samples : List String) (d : SnpData) (uid : String)
    (rp : Nat) (ch : String) (t : SNPType) (d' : SnpData)
    (h : add_snp_to_samples samples d uid rp ch t = some d') :
    ∀ s₂ u₂, (lookup2 d' s₂ u₂).map exp_fields = (lookup2 d s₂ u₂).map exp_fields := by
  induction samples generalizing d with
  | nil =>
    simp [add_snp_to_samples] at h
    subst h
    intro s₂ u₂
    rfl
  | cons s rest ih =>
    unfold add_snp_to_samples at h
    cases h1 : snpDataAddSnp d s uid rp ch t with
    | none => rw [h1] at h; exact absurd h (by simp)
    | some d₁ =>
      rw [h1] at h
      dsimp only at h
      intro s₂ u₂
      rw [ih d₁ h s₂ u₂, snpDataAddSnp_exp d s uid rp ch t d₁ h1 s₂ u₂]

theorem check_snp_in_set_exp (anns : List Annot) (samples : List String) (d : SnpData)
    (pos : Nat) (change : String) (seq : List Char) (d' : SnpData)
    (h : check_snp_in_set samples d pos change anns seq = some d') :
    ∀ s₂ u₂, (lookup2 d' s₂ u₂).map exp_fields = (lookup2 d s₂ u₂).map exp_fields := by
  induction anns generalizing d with
  | nil =>
    simp [check_snp_in_set] at h
    subst h
    intro s₂ u₂
    rfl
  | cons a rest ih =>
    unfold check_snp_in_set at h
    by_cases hpos : a.posIn pos
    · simp only [hpos, if_true] at h
      cases h1 : add_snp_to_samples samples d a.uid (a.get_relative_pos pos) change
          (if a.is_syn seq pos change then SNPType.syn else SNPType.nonsyn) with
      | none => rw [h1] at h; exact absurd h (by simp)
      | some d₁ =>
        rw [h1] at h
        dsimp only at h
        intro s₂ u₂
        rw [ih d₁ h s₂ u₂,
          add_snp_to_samples_exp samples d a.uid (a.get_relative_pos pos) change _ d₁ h1 s₂ u₂]
    · simp only [hpos, if_false, Bool.false_eq_true] at h
      exact ih d h

theorem process_alleles_exp (als : List (String × List String)) (d : SnpData)
    (accepted : Nat) (pos : Nat) (anns : List Annot) (seq : List Char)
    (d' : SnpData) (acc' : Nat)
    (h : process_alleles als d accepted pos anns seq = some (d', acc')) :
    ∀ s₂ u₂, (lookup2 d' s₂ u₂).map exp_fields = (lookup2 d s₂ u₂).map exp_fields := by
  induction als generalizing d accepted with
  | nil =>
    simp [process_alleles] at h
    rw [h.1]
    intro s₂ u₂
    rfl
  | cons p rest ih =>
    obtain ⟨change, samples⟩ := p
    unfold process_alleles at h
    by_cases hemp : samples = ([] : List String)
    · simp only [hemp, if_pos rfl] at h
      exact ih d accepted h
    · simp only [if_neg hemp] at h
      cases h1 : check_snp_in_set samples d pos change anns seq with
      | none => rw [h1] at h; exact absurd h (by simp)
      | some d₁ =>
        rw [h1] at h
        dsimp only at h
        intro s₂ u₂
        rw [ih d₁ (accepted + 1) h s₂ u₂,
          check_snp_in_set_exp anns samples d pos change seq d₁ h1 s₂ u₂]

theorem process_record_exp (mq : ℚ) (mr : Nat) (mf : ℚ)
    (sids : List (String × String)) (am : List (String × List Annot))
    (seqs : List (String × List Char)) (st : ParseState) (rec : VcfRecord)
    (st' : ParseState) (h : process_record mq mr mf sids am seqs st rec = some st') :
    ∀ s₂ u₂, (lookup2 st'.snp_data s₂ u₂).map exp_fields
      = (lookup2 st.snp_data s₂ u₂).map exp_fields := by
  unfold process_record at h
  by_cases h1 : (alistGet am rec.CHROM).isNone
  · rw [if_pos h1] at h
    have hx := Option.some.inj h
    subst hx
    intro s₂ u₂
    rfl
  · rw [if_neg h1] at h
    by_cases h2 : rec.is_indel
    · rw [if_pos h2] at h
      have hx := Option.some.inj h
      subst hx
      intro s₂ u₂
      rfl
    · rw [if_neg h2] at h
      by_cases h3 : rec.DP < mr
      · rw [if_pos h3] at h
        have hx := Option.some.inj h
        subst hx
        intro s₂ u₂
        rfl
      · rw [if_neg h3] at h
        by_cases h4 : rec.QUAL < mq
        · rw [if_pos h4] at h
          have hx := Option.some.inj h
          subst hx
          intro s₂ u₂
          rfl
        · rw [if_neg h4] at h
          dsimp only at h
          cases hals : record_samples rec.REF (dict_from_pairs (rec.ALT.zip rec.aaf)) mf
              sids rec.samples (rec.ALT.foldl (fun d al => alistSet d al []) []) with
          | none => rw [hals] at h; exact absurd h (by simp)
          | some als =>
            rw [hals] at h
            dsimp only at h
            cases hseq : alistGet seqs rec.CHROM with
            | none => rw [hseq] at h; exact absurd h (by simp)
            | some seq =>
              rw [hseq] at h
              dsimp only at h
              cases hann : alistGet am rec.CHROM with
              | none => rw [hann] at h; exact absurd h (by simp)
              | some ann_seq =>
                rw [hann] at h
                dsimp only at h
                cases hpr : process_alleles als st.snp_data st.accepted_snps rec.POS
                    ann_seq seq with
                | none => rw [hpr] at h; exact absurd h (by simp)
                | some pr =>
                  obtain ⟨d₁, acc₁⟩ := pr
                  rw [hpr] at h
                  dsimp only at h
                  have hx := Option.some.inj h
                  subst hx
                  intro s₂ u₂
                  exact process_alleles_exp als st.snp_data st.accepted_snps rec.POS
                    ann_seq seq d₁ acc₁ hpr s₂ u₂

theorem parse_vcf_exp (mq : ℚ) (mr : Nat) (mf : ℚ)
    (sids : List (String × String)) (am : List (String × List Annot))
    (seqs : List (String × List Char)) (st : ParseState) (recs : List VcfRecord)
    (st' : ParseState) (h : parse_vcf mq mr mf sids am seqs st recs = some st') :
    ∀ s₂ u₂, (lookup2 st'.snp_data s₂ u₂).map exp_fields
      = (lookup2 st.snp_data s₂ u₂).map exp_fields := by
  induction recs generalizing st with
  | nil =>
    simp [parse_vcf] at h
    subst h
    intro s₂ u₂
    rfl
  | cons rec rest ih =>
    unfold parse_vcf at h
    cases h1 : process_record mq mr mf sids am seqs st rec with
    | none => rw [h1] at h; exact absurd h (by simp)
    | some st₁ =>
      rw [h1] at h
      dsimp only at h
      intro s₂ u₂
      rw [ih st₁ h s₂ u₂, process_record_exp mq mr mf sids am seqs st rec st₁ h1 s₂ u₂]

/-! ## Characterization of table initialization -/

theorem add_exp_uid (a : Annot) (sq : List Char) : (a.add_exp_syn_count sq).uid = a.uid := rfl

theorem add_exp_cov (a : Annot) (sq : List Char) :
    (a.add_exp_syn_count sq).sample_coverage = a.sample_coverage := rfl

theorem exp_fields_mkGeneSNP (a : Annot) (cov : ℚ) :
    exp_fields (mkGeneSNP a cov) = (a.exp_syn, a.exp_nonsyn) := rfl

theorem init_add_samples_unchanged (covs : List (String × ℚ)) (d : SnpData) (b : Annot)
    (d' : SnpData) (h : init_add_samples d covs b = some d') :
    ∀ s u, (s ∉ covs.map Prod.fst ∨ u ≠ b.uid) → lookup2 d' s u = lookup2 d s u := by
  induction covs generalizing d with
  | nil =>
    simp [init_add_samples] at h
    subst h
    intro s u _
    rfl
  | cons p rest ih =>
    obtain ⟨s₀, cov⟩ := p
    unfold init_add_samples at h
    cases hget : alistGet d s₀ with
    | none => rw [hget] at h; exact absurd h (by simp)
    | some inner =>
      rw [hget] at h
      dsimp only at h
      intro s u hcond
      have hcond' : s ∉ rest.map Prod.fst ∨ u ≠ b.uid := by
        rcases hcond with hs | hu
        · exact Or.inl (fun hmem => hs (by simp [hmem]))
        · exact Or.inr hu
      rw [ih _ h s u hcond']
      unfold lookup2
      rw [alistGet_alistSet]
      by_cases hss : s = s₀
      · subst hss
        rw [if_pos rfl, hget]
        dsimp only
        rw [alistGet_alistSet]
        have hu : u ≠ b.uid := by
          rcases hcond with hs | hu
          · exact absurd (by simp) hs
          · exact hu
        rw [if_neg hu]
      · rw [if_neg hss]

theorem init_add_samples_lookup (covs : List (String × ℚ)) (d : SnpData) (b : Annot)
    (d' : SnpData) (h : init_add_samples d covs b = some d')
    (hnd : (covs.map Prod.fst).Nodup) :
    ∀ p ∈ covs, lookup2 d' p.1 b.uid = some (mkGeneSNP b p.2) := by
  induction covs generalizing d with
  | nil => simp
  | cons q rest ih =>
    obtain ⟨s₀, cov⟩ := q
    unfold init_add_samples at h
    cases hget : alistGet d s₀ with
    | none => rw [hget] at h; exact absurd h (by simp)
    | some inner =>
      rw [hget] at h
      dsimp only at h
      intro p hp
      rcases List.mem_cons.mp hp with hq | hrest
      · subst hq
        dsimp only
        have hs₀ : s₀ ∉ rest.map Prod.fst := by
          have := (List.nodup_cons.mp hnd).1
          simpa using this
        rw [init_add_samples_unchanged rest _ b d' h s₀ b.uid (Or.inl hs₀)]
        unfold lookup2
        rw [alistGet_alistSet, if_pos rfl]
        dsimp only
        rw [alistGet_alistSet, if_pos rfl]
      · exact ih _ h (List.nodup_cons.mp hnd).2 p hrest

theorem init_count_set_loop_unchanged (anns : List Annot) (seqs : List (String × List Char))
    (d : SnpData) (d' : SnpData) (h : init_count_set_loop anns seqs d = some d') :
    ∀ s u, (∀ a ∈ anns, a.uid = u → s ∉ a.sample_coverage.map Prod.fst) →
      lookup2 d' s u = lookup2 d s u := by
  induction anns generalizing d with
  | nil =>
    simp [init_count_set_loop] at h
    subst h
    intro s u _
    rfl
  | cons a rest ih =>
    unfold init_count_set_loop at h
    cases hsq : alistGet seqs a.seq_id with
    | none => rw [hsq] at h; exact absurd h (by simp)
    | some sq =>
      rw [hsq] at h
      dsimp only at h
      cases hadd : init_add_samples d (a.add_exp_syn_count sq).sample_coverage
          (a.add_exp_syn_count sq) with
      | none => rw [hadd] at h; exact absurd h (by simp)
      | some d₁ =>
        rw [hadd] at h
        dsimp only at h
        intro s u hcond
        rw [ih _ h s u (fun c hc => hcond c (by simp [hc]))]
        apply init_add_samples_unchanged _ _ _ _ hadd
        by_cases hu : u = a.uid
        · subst hu
          rw [add_exp_cov]
          exact Or.inl (hcond a (by simp) (add_exp_uid a sq))
        · exact Or.inr (by rw [add_exp_uid]; exact hu)

theorem init_count_set_loop_lookup (anns : List Annot) (seqs : List (String × List Char))
    (d : SnpData) (d' : SnpData) (h : init_count_set_loop anns seqs d = some d')
    (hnd : (anns.map Annot.uid).Nodup) :
    ∀ a ∈ anns, ∀ sq, alistGet seqs a.seq_id = some sq →
      (a.sample_coverage.map Prod.fst).Nodup →
      ∀ p ∈ a.sample_coverage,
        lookup2 d' p.1 a.uid = some (mkGeneSNP (a.add_exp_syn_count sq) p.2) := by
  induction anns generalizing d with
  | nil => simp
  | cons b rest ih =>
    unfold init_count_set_loop at h
    cases hsq : alistGet seqs b.seq_id with
    | none => rw [hsq] at h; exact absurd h (by simp)
    | some sqb =>
      rw [hsq] at h
      dsimp only at h
      cases hadd : init_add_samples d (b.add_exp_syn_count sqb).sample_coverage
          (b.add_exp_syn_count sqb) with
      | none => rw [hadd] at h; exact absurd h (by simp)
      | some d₁ =>
        rw [hadd] at h
        dsimp only at h
        intro a ha sq hsq' hcnd p hp
        rcases List.mem_cons.mp ha with hab | hrest
        · subst hab
          rw [hsq] at hsq'
          have hsq'' := Option.some.inj hsq'
          subst hsq''
          have huid : a.uid ∉ rest.map Annot.uid := by
            have := (List.nodup_cons.mp hnd).1
            simpa using this
          rw [init_count_set_loop_unchanged rest seqs d₁ d' h p.1 a.uid
            (fun c hc hcEq => absurd (hcEq ▸ List.mem_map_of_mem Annot.uid hc) huid)]
          apply init_add_samples_lookup _ _ _ _ hadd
          · rw [add_exp_cov]
            exact hcnd
          · rw [add_exp_cov]
            exact hp
        · exact ih _ h (List.nodup_cons.mp hnd).2 a hrest sq hsq' hcnd p hp

theorem map_nil_get (samples : List String) (s : String) :
    alistGet (samples.map (fun s₂ => (s₂, ([] : List (String × GeneSNP))))) s = none ∨
    alistGet (samples.map (fun s₂ => (s₂, ([] : List (String × GeneSNP))))) s = some [] := by
  induction samples with
  | nil => exact Or.inl rfl
  | cons s₀ rest ih =>
    simp only [List.map_cons]
    unfold alistGet
    by_cases hs : s = s₀
    · exact Or.inr (by rw [if_pos hs])
    · rw [if_neg hs]
      exact ih

theorem init_table_none (samples : List String) (s u : String) :
    lookup2 (samples.map (fun s₂ => (s₂, ([] : List (String × GeneSNP))))) s u = none := by
  unfold lookup2
  rcases map_nil_get samples s with h | h <;> simp [h, alistGet]

/-! ## Characterization of init_count_set_sample_files -/

theorem fold_set_get_of_not_mem (G : Annot → GeneSNP) (anns : List Annot)
    (inner : List (String × GeneSNP)) (u : String) (hu : u ∉ anns.map Annot.uid) :
    alistGet (anns.foldl (fun acc a => alistSet acc a.uid (G a)) inner) u = alistGet inner u := by
  induction anns generalizing inner with
  | nil => rfl
  | cons b rest ih =>
    have hu' : u ∉ rest.map Annot.uid := by
      intro hmem
      exact hu (by simp [hmem])
    have hub : u ≠ b.uid := by
      intro hEq
      exact hu (by simp [hEq])
    simp only [List.foldl_cons]
    rw [ih _ hu', alistGet_alistSet, if_neg hub]

theorem fold_set_get_mem (G : Annot → GeneSNP) (anns : List Annot)
    (inner : List (String × GeneSNP)) (hnd : (anns.map Annot.uid).Nodup) :
    ∀ a ∈ anns, alistGet (anns.foldl (fun acc a => alistSet acc a.uid (G a)) inner) a.uid
      = some (G a) := by
  induction anns generalizing inner with
  | nil => simp
  | cons b rest ih =>
    intro a ha
    simp only [List.foldl_cons]
    rcases List.mem_cons.mp ha with hab | hrest
    · subst hab
      have huid : a.uid ∉ rest.map Annot.uid := by
        have := (List.nodup_cons.mp hnd).1
        simpa using this
      rw [fold_set_get_of_not_mem G rest _ a.uid huid, alistGet_alistSet, if_pos rfl]
    · exact ih _ (List.nodup_cons.mp hnd).2 a hrest

theorem add_exp_all_eq (anns : List Annot) (seqs : List (String × List Char))
    (hseq : ∀ a ∈ anns, (alistGet seqs a.seq_id).isSome) :
    add_exp_all anns seqs
      = some (anns.map (fun a => a.add_exp_syn_count ((alistGet seqs a.seq_id).getD []))) := by
  induction anns with
  | nil => rfl
  | cons a rest ih =>
    have ha := hseq a (by simp)
    cases hsq : alistGet seqs a.seq_id with
    | none => rw [hsq] at ha; simp at ha
    | some sq =>
      unfold add_exp_all
      rw [hsq]
      dsimp only
      rw [ih (fun b hb => hseq b (by simp [hb]))]
      simp [hsq]

theorem alistGet_map_value {β γ : Type} (F : String → β → γ) (l : List (String × β))
    (hnd : (l.map Prod.fst).Nodup) :
    ∀ p ∈ l, alistGet (l.map (fun q => (q.1, F q.1 q.2))) p.1 = some (F p.1 p.2) := by
  induction l with
  | nil => simp
  | cons q rest ih =>
    intro p hp
    rcases List.mem_cons.mp hp with hpq | hrest
    · subst hpq
      simp [alistGet]
    · have hne : p.1 ≠ q.1 := by
        intro hEq
        have := (List.nodup_cons.mp hnd).1
        exact this (hEq ▸ List.mem_map_of_mem Prod.fst hrest)
      simp only [List.map_cons]
      unfold alistGet
      rw [if_neg hne]
      exact ih (List.nodup_cons.mp hnd).2 p hrest

/-! ## Provenance of entries of the alleles_sample dictionary -/

theorem mem_getD_exists (d : List (String × List String)) (c s : String)
    (h : s ∈ (alistGet d c).getD []) : ∃ q ∈ d, q.1 = c ∧ s ∈ q.2 := by
  induction d with
  | nil => simp [alistGet] at h
  | cons q rest ih =>
    obtain ⟨k, v⟩ := q
    unfold alistGet at h
    by_cases hc : c = k
    · rw [if_pos hc] at h
      exact ⟨(k, v), by simp, hc.symm, by simpa using h⟩
    · rw [if_neg hc] at h
      obtain ⟨q₂, hq₂, hfst, hmem⟩ := ih h
      exact ⟨q₂, by simp [hq₂], hfst, hmem⟩

theorem alistSet_values {β : Type} (d : List (String × β)) (k : String) (v : β) :
    ∀ q ∈ alistSet d k v, q ∈ d ∨ q = (k, v) := by
  induction d with
  | nil => simp [alistSet]
  | cons p rest ih =>
    obtain ⟨k₀, v₀⟩ := p
    intro q hq
    unfold alistSet at hq
    by_cases hk : k = k₀
    · rw [if_pos hk] at hq
      rcases List.mem_cons.mp hq with hq1 | hq2
      · exact Or.inr (by rw [hq1, hk])
      · exact Or.inl (by simp [hq2])
    · rw [if_neg hk] at hq
      rcases List.mem_cons.mp hq with hq1 | hq2
      · exact Or.inl (by simp [hq1])
      · rcases ih q hq2 with h1 | h2
        · exact Or.inl (by simp [h1])
        · exact Or.inr h2

theorem foldl_set_nil_values (alt : List String) (init : List (String × List String))
    (hinit : ∀ q ∈ init, q.2 = ([] : List String)) :
    ∀ q ∈ alt.foldl (fun d al => alistSet d al []) init, q.2 = ([] : List String) := by
  induction alt generalizing init with
  | nil => exact hinit
  | cons al rest ih =>
    simp only [List.foldl_cons]
    apply ih
    intro q hq
    rcases alistSet_values init al [] q hq with h1 | h2
    · exact hinit q h1
    · rw [h2]

theorem set_add_mem (xs : List String) (x s : String) (h : s ∈ set_add xs x) :
    s ∈ xs ∨ s = x := by
  unfold set_add at h
  by_cases hx : x ∈ xs
  · rw [if_pos hx] at h
    exact Or.inl h
  · rw [if_neg hx] at h
    rcases List.mem_append.mp h with h1 | h2
    · exact Or.inl h1
    · exact Or.inr (by simpa using h2)

theorem alleles_sample_add_mem (als : List (String × List String)) (change sid : String)
    (als' : List (String × List String)) (h : alleles_sample_add als change sid = some als') :
    ∀ c s, s ∈ (alistGet als' c).getD [] →
      s ∈ (alistGet als c).getD [] ∨ (c = change ∧ s = sid) := by
  unfold alleles_sample_add at h
  cases hget : alistGet als change with
  | none => rw [hget] at h; exact absurd h (by simp)
  | some ss =>
    rw [hget] at h
    dsimp only at h
    have hals' := Option.some.inj h
    subst hals'
    intro c s hmem
    rw [alistGet_alistSet] at hmem
    by_cases hc : c = change
    · rw [if_pos hc] at hmem
      rcases set_add_mem ss sid s (by simpa using hmem) with h1 | h2
      · exact Or.inl (by rw [hc, hget]; simpa using h1)
      · exact Or.inr ⟨hc, h2⟩
    · rw [if_neg hc] at hmem
      exact Or.inl hmem

theorem record_changes_mem (ref : String) (freqs : List (String × ℚ)) (mf : ℚ)
    (sids : List (String × String)) (vs : String) (changes : List String)
    (als als' : List (String × List String))
    (h : record_changes ref freqs mf sids vs changes als = some als') :
    ∀ c s, s ∈ (alistGet als' c).getD [] →
      s ∈ (alistGet als c).getD [] ∨
      (c ∈ changes ∧ c ≠ ref ∧ ¬ ((alistGet freqs c).getD 0 < mf) ∧
        alistGet sids vs = some s) := by
  induction changes generalizing als with
  | nil =>
    simp [record_changes] at h
    subst h
    intro c s hmem
    exact Or.inl hmem
  | cons ch rest ih =>
    unfold record_changes at h
    by_cases h1 : ch = ref
    · rw [if_pos h1] at h
      intro c s hmem
      rcases ih als h c s hmem with hl | hr
      · exact Or.inl hl
      · exact Or.inr ⟨by simp [hr.1], hr.2⟩
    · rw [if_neg h1] at h
      by_cases h2 : (alistGet freqs ch).getD 0 < mf
      · rw [if_pos h2] at h
        intro c s hmem
        rcases ih als h c s hmem with hl | hr
        · exact Or.inl hl
        · exact Or.inr ⟨by simp [hr.1], hr.2⟩
      · rw [if_neg h2] at h
        cases hsid : alistGet sids vs with
        | none => rw [hsid] at h; exact absurd h (by simp)
        | some sid =>
          rw [hsid] at h
          dsimp only at h
          cases hadd : alleles_sample_add als ch sid with
          | none => rw [hadd] at h; exact absurd h (by simp)
          | some als₁ =>
            rw [hadd] at h
            dsimp only at h
            intro c s hmem
            rcases ih als₁ h c s hmem with hl | hr
            · rcases alleles_sample_add_mem als ch sid als₁ hadd c s hl with hll | hlr
              · exact Or.inl hll
              · refine Or.inr ⟨by simp [hlr.1], ?_, ?_, ?_⟩
                · rw [hlr.1]
                  exact h1
                · rw [hlr.1]
                  exact h2
                · rw [hlr.2]
            · refine Or.inr ⟨by simp [hr.1], hr.2.1, hr.2.2.1, ?_⟩
              rw [← hsid]
              exact hr.2.2.2

theorem record_samples_mem (ref : String) (freqs : List (String × ℚ)) (mf : ℚ)
    (sids : List (String × String)) (sams : List SampleInfo)
    (als als' : List (String × List String))
    (h : record_samples ref freqs mf sids sams als = some als') :
    ∀ c s, s ∈ (alistGet als' c).getD [] →
      s ∈ (alistGet als c).getD [] ∨
      ∃ si ∈ sams, ∃ gt, si.gt_bases = some gt ∧ c ∈ gt_parts gt ∧ c ≠ ref ∧
        ¬ ((alistGet freqs c).getD 0 < mf) ∧ alistGet sids si.sample = some s := by
  induction sams generalizing als with
  | nil =>
    simp [record_samples] at h
    subst h
    intro c s hmem
    exact Or.inl hmem
  | cons si rest ih =>
    unfold record_samples at h
    cases hgt : si.gt_bases with
    | none =>
      rw [hgt] at h
      intro c s hmem
      rcases ih als h c s hmem with hl | hr
      · exact Or.inl hl
      · obtain ⟨si₂, hsi₂, rest'⟩ := hr
        exact Or.inr ⟨si₂, by simp [hsi₂], rest'⟩
    | some gt =>
      rw [hgt] at h
      dsimp only at h
      cases hrc : record_changes ref freqs mf sids si.sample (gt_parts gt) als with
      | none => rw [hrc] at h; exact absurd h (by simp)
      | some als₁ =>
        rw [hrc] at h
        dsimp only at h
        intro c s hmem
        rcases ih als₁ h c s hmem with hl | hr
        · rcases record_changes_mem ref freqs mf sids si.sample (gt_parts gt) als als₁
            hrc c s hl with hll | hlr
          · exact Or.inl hll
          · exact Or.inr ⟨si, by simp, gt, hgt, hlr.1, hlr.2.1, hlr.2.2.1, hlr.2.2.2⟩
        · obtain ⟨si₂, hsi₂, rest'⟩ := hr
          exact Or.inr ⟨si₂, by simp [hsi₂], rest'⟩

/-! ## Equivalence of the two gene-map formats -/

theorem two_cols_aux_append (a b : List (String × String)) :
    ∀ d, read_gene_map_two_columns_aux d (a ++ b)
      = read_gene_map_two_columns_aux (read_gene_map_two_columns_aux d a) b := by
  induction a with
  | nil => intro d; rfl
  | cons p a' ih =>
    intro d
    obtain ⟨k, v⟩ := p
    simp only [List.cons_append, read_gene_map_two_columns_aux]
    cases hk : alistGet d k with
    | some s => exact ih _
    | none => exact ih _

theorem alistGet_append_entry {β : Type} (d : List (String × β)) (g : String) (s : β)
    (h : alistGet d g = none) : alistGet (d ++ [(g, s)]) g = some s := by
  rw [alistGet_append_right d _ g h]
  simp [alistGet]

theorem alistSet_append_entry {β : Type} (d : List (String × β)) (g : String) (s v : β)
    (h : alistGet d g = none) : alistSet (d ++ [(g, s)]) g v = d ++ [(g, v)] := by
  induction d with
  | nil => simp [alistSet]
  | cons p rest ih =>
    obtain ⟨k₀, v₀⟩ := p
    by_cases hk : g = k₀
    · rw [hk] at h
      simp [alistGet] at h
    · simp [alistGet, hk] at h
      simp [alistSet, hk, ih h]

theorem two_cols_aux_same_key (d : GeneMap) (g : String) (h : alistGet d g = none) :
    ∀ (vs : List String) (s : Finset String),
      read_gene_map_two_columns_aux (d ++ [(g, s)]) (vs.map (fun v => (g, v)))
        = d ++ [(g, s ∪ vs.toFinset)] := by
  intro vs
  induction vs with
  | nil => intro s; simp [read_gene_map_two_columns_aux]
  | cons v vs' ih =>
    intro s
    simp only [List.map_cons]
    unfold read_gene_map_two_columns_aux
    rw [alistGet_append_entry d g s h]
    dsimp only
    rw [alistSet_append_entry d g s (insert v s) h]
    rw [ih (insert v s)]
    rw [List.toFinset_cons, Finset.insert_union, Finset.union_insert]

theorem two_cols_aux_fresh_key (d : GeneMap) (g : String) (h : alistGet d g = none)
    (vs : List String) (hvs : vs ≠ []) :
    read_gene_map_two_columns_aux d (vs.map (fun v => (g, v))) = d ++ [(g, vs.toFinset)] := by
  cases vs with
  | nil => exact absurd rfl hvs
  | cons v vs' =>
    simp only [List.map_cons]
    unfold read_gene_map_two_columns_aux
    rw [h]
    rw [alistSet_of_get_none d g {v} h]
    rw [two_cols_aux_same_key d g h vs' {v}]
    rw [List.toFinset_cons, ← Finset.insert_eq]

theorem gene_map_equiv_aux (rows : List (String × List String)) :
    ∀ d : GeneMap, ((rows.map Prod.fst).Nodup) → (∀ r ∈ rows, alistGet d r.1 = none) →
      (∀ r ∈ rows, r.2 ≠ []) →
      read_gene_map_default_aux d rows = read_gene_map_two_columns_aux d (expand_rows rows) := by
  induction rows with
  | nil => intro d _ _ _; rfl
  | cons r rest ih =>
    intro d hnd hfresh hne
    obtain ⟨g, vs⟩ := r
    have hdg : alistGet d g = none := hfresh (g, vs) (by simp)
    have hvs : vs ≠ [] := hne (g, vs) (by simp)
    unfold read_gene_map_default_aux expand_rows
    rw [two_cols_aux_append]
    rw [two_cols_aux_fresh_key d g hdg vs hvs]
    rw [alistSet_of_get_none d g vs.toFinset hdg]
    apply ih
    · exact (List.nodup_cons.mp hnd).2
    · intro q hq
      have hqg : q.1 ≠ g := by
        intro hEq
        have hmem : q.1 ∈ rest.map Prod.fst := List.mem_map_of_mem Prod.fst hq
        rw [hEq] at hmem
        have hnd₂ : (g :: rest.map Prod.fst).Nodup := by simpa using hnd
        exact (List.nodup_cons.mp hnd₂).1 hmem
      rw [alistGet_append_right d _ q.1 (hfresh q (by simp [hq]))]
      simp [alistGet, hqg]
    · intro q hq
      exact hne q (by simp [hq])

/-! ## Characterization of the vcf command validation -/

theorem load_ann_loop_false (feat : String) (sids : List String) (anns : List Annot) :
    ∀ acc, load_ann_loop feat sids anns false acc
      = Except.ok (acc ++ anns.filter (fun a => a.feat_type == feat)) := by
  induction anns with
  | nil => intro acc; simp [load_ann_loop]
  | cons a rest ih =>
    intro acc
    unfold load_ann_loop
    by_cases hft : a.feat_type = feat
    · rw [if_neg (by simp [hft])]
      rw [ih (acc ++ [a])]
      simp [List.filter_cons, hft]
    · rw [if_pos (by simp [hft])]
      rw [ih acc]
      simp [List.filter_cons, hft]

theorem load_ann_loop_true (feat : String) (sids : List String) (anns : List Annot) :
    ∀ acc, load_ann_loop feat sids anns true acc
      = match anns.filter (fun a => a.feat_type == feat) with
        | [] => Except.ok acc
        | a0 :: rest =>
          if same_set (a0.sample_coverage.map Prod.fst) sids then
            Except.ok (acc ++ a0 :: rest)
          else Except.error (CmdError.exit_script "Sample names are wrong" 2) := by
  induction anns with
  | nil => intro acc; simp [load_ann_loop]
  | cons a rest ih =>
    intro acc
    unfold load_ann_loop
    by_cases hft : a.feat_type = feat
    · rw [if_neg (by simp [hft])]
      cases hss : same_set (a.sample_coverage.map Prod.fst) sids with
      | true =>
        simp only [if_true]
        rw [load_ann_loop_false feat sids rest (acc ++ [a])]
        simp [List.filter_cons, hft, hss]
      | false =>
        simp [List.filter_cons, hft, hss]
    · rw [if_pos (by simp [hft])]
      rw [ih acc]
      simp [List.filter_cons, hft]

/-! ## Claim theorems -/

/-- C1: for every accepted alternate allele processed by check_snp_in_set,
exactly one event is appended to the GeneSNP record of each (sample, feature)
pair such that the sample carries the allele and the position falls within
the feature; the event is keyed by the position relative to the feature start
and is synonymous exactly when the non-strict codon translation says so; every
other record is untouched, and the total number of recorded events grows by
the number of (carrying sample, overlapping feature) pairs. -/
theorem claim_c1 (anns : List Annot) (samples : List String) (d : SnpData)
    (pos : Nat) (change : String) (seq : List Char)
    (hnd : (anns.map Annot.uid).Nodup) (hsam : samples.Nodup)
    (hex : ∀ s ∈ samples, ∀ a ∈ anns, a.posIn pos → (lookup2 d s a.uid).isSome) :
    ∃ d', check_snp_in_set samples d pos change anns seq = some d' ∧
      (∀ s ∈ samples, ∀ a ∈ anns, a.posIn pos →
        lookup2 d' s a.uid = (lookup2 d s a.uid).map
          (fun g => g.add_snp (a.get_relative_pos pos) change
            (if a.is_syn seq pos change then SNPType.syn else SNPType.nonsyn))) ∧
      (∀ s u, (s ∉ samples ∨ ∀ a ∈ anns, a.uid = u → ¬ a.posIn pos) →
        lookup2 d' s u = lookup2 d s u) ∧
      total_events d' = total_events d
        + samples.length * (anns.filter (fun a => a.posIn pos)).length :=
  check_snp_in_set_char anns samples d pos change seq hnd hsam hex

/-- C1 witness: the theorem applied to the concrete fixture run. -/
theorem claim_c1_witness :
    (([fixAnn].map Annot.uid).Nodup ∧ (["s1", "s2"] : List String).Nodup ∧
      (∀ s ∈ ["s1", "s2"], ∀ a ∈ [fixAnn], a.posIn 3 → (lookup2 fixD0 s a.uid).isSome)) ∧
    (∃ d', check_snp_in_set ["s1", "s2"] fixD0 3 "G" [fixAnn] fixSeq = some d' ∧
      (∀ s ∈ ["s1", "s2"], ∀ a ∈ [fixAnn], a.posIn 3 →
        lookup2 d' s a.uid = (lookup2 fixD0 s a.uid).map
          (fun g => g.add_snp (a.get_relative_pos 3) "G"
            (if a.is_syn fixSeq 3 "G" then SNPType.syn else SNPType.nonsyn))) ∧
      (∀ s u, (s ∉ ["s1", "s2"] ∨ ∀ a ∈ [fixAnn], a.uid = u → ¬ a.posIn 3) →
        lookup2 d' s u = lookup2 fixD0 s u) ∧
      total_events d' = total_events fixD0
        + (["s1", "s2"] : List String).length * ([fixAnn].filter (fun a => a.posIn 3)).length) :=
  ⟨⟨by decide, by decide, by decide⟩,
    claim_c1 [fixAnn] ["s1", "s2"] fixD0 3 "G" fixSeq (by decide) (by decide) (by decide)⟩

/-- C3: the expected-site counts of every GeneSNP record are set during table
initialization from the feature carrying the attached expected counts, and no
parse_vcf or check_snp_in_set call ever changes them. -/
theorem claim_c3 :
    (∀ (mq : ℚ) (mr : Nat) (mf : ℚ) (sids : List (String × String))
        (am : List (String × List Annot)) (seqs : List (String × List Char))
        (st : ParseState) (recs : List VcfRecord) (st' : ParseState),
      parse_vcf mq mr mf sids am seqs st recs = some st' →
      ∀ s u, (lookup2 st'.snp_data s u).map exp_fields
        = (lookup2 st.snp_data s u).map exp_fields) ∧
    (∀ (samples : List String) (d : SnpData) (pos : Nat) (change : String)
        (anns : List Annot) (seq : List Char) (d' : SnpData),
      check_snp_in_set samples d pos change anns seq = some d' →
      ∀ s u, (lookup2 d' s u).map exp_fields = (lookup2 d s u).map exp_fields) ∧
    (∀ (anns : List Annot) (seqs : List (String × List Char)) (d₀ : SnpData),
      init_count_set anns seqs = some d₀ → (anns.map Annot.uid).Nodup →
      ∀ a ∈ anns, ∀ sq, alistGet seqs a.seq_id = some sq →
        (a.sample_coverage.map Prod.fst).Nodup →
        ∀ p ∈ a.sample_coverage,
          (lookup2 d₀ p.1 a.uid).map exp_fields
            = some ((a.add_exp_syn_count sq).exp_syn, (a.add_exp_syn_count sq).exp_nonsyn)) := by
  refine ⟨?_, ?_, ?_⟩
  · intro mq mr mf sids am seqs st recs st' h s u
    exact parse_vcf_exp mq mr mf sids am seqs st recs st' h s u
  · intro samples d pos change anns seq d' h s u
    exact check_snp_in_set_exp anns samples d pos change seq d' h s u
  · intro anns seqs d₀ h hnd a ha sq hsq hcov p hp
    cases anns with
    | nil => simp [init_count_set] at h
    | cons a0 tail =>
      unfold init_count_set at h
      dsimp only at h
      rw [init_count_set_loop_lookup _ seqs _ d₀ h hnd a ha sq hsq hcov p hp]
      simp [exp_fields_mkGeneSNP]

/-- C3 witness: the theorem applied to the fixture run and fixture table. -/
theorem claim_c3_witness :
    (parse_vcf 30 4 (mkRat 1 100) fixSids [("c", [fixAnn])] [("c", fixSeq)]
        fixSt0 [fixRec] = some fixSt1) ∧
    (∀ s u, (lookup2 fixSt1.snp_data s u).map exp_fields
      = (lookup2 fixSt0.snp_data s u).map exp_fields) ∧
    (init_count_set [fixAnn] [("c", fixSeq)] = some fixD0) ∧
    (∀ p ∈ fixAnn.sample_coverage,
      (lookup2 fixD0 p.1 fixAnn.uid).map exp_fields
        = some ((fixAnn.add_exp_syn_count fixSeq).exp_syn,
            (fixAnn.add_exp_syn_count fixSeq).exp_nonsyn)) :=
  ⟨by decide,
   claim_c3.1 30 4 (mkRat 1 100) fixSids [("c", [fixAnn])] [("c", fixSeq)]
     fixSt0 [fixRec] fixSt1 (by decide),
   by decide,
   claim_c3.2.2 [fixAnn] [("c", fixSeq)] fixD0 (by decide) (by decide)
     fixAnn (by simp) fixSeq (by decide) (by decide)⟩

/-- C10: init_count_set_sample_files creates one GeneSNP for the full cross
product of the coverage-file samples and the flattened features, with coverage
looked up in the per-sample table and defaulting to zero for an absent uid;
init_count_set instead creates no record for a (sample, feature) pair whose
sample is not in the coverage map of that feature. -/
theorem claim_c10 :
    (∀ (grouped : List (String × List Annot)) (seqs : List (String × List Char))
        (cov_files : List (String × List (String × ℚ))),
      (∀ a ∈ (grouped.map Prod.snd).flatten, (alistGet seqs a.seq_id).isSome) →
      (((grouped.map Prod.snd).flatten.map Annot.uid).Nodup) →
      ((cov_files.map Prod.fst).Nodup) →
      ∃ d, init_count_set_sample_files grouped seqs cov_files = some d ∧
        ∀ p ∈ cov_files, ∀ a ∈ (grouped.map Prod.snd).flatten,
          lookup2 d p.1 a.uid = some (mkGeneSNP
            (a.add_exp_syn_count ((alistGet seqs a.seq_id).getD []))
            ((alistGet p.2 a.uid).getD 0))) ∧
    (∀ (anns : List Annot) (seqs : List (String × List Char)) (d₂ : SnpData),
      init_count_set anns seqs = some d₂ → (anns.map Annot.uid).Nodup →
      ∀ a ∈ anns, ∀ s, s ∉ a.sample_coverage.map Prod.fst →
        lookup2 d₂ s a.uid = none) := by
  constructor
  · intro grouped seqs cov_files hseq hnd hcf
    unfold init_count_set_sample_files
    dsimp only
    rw [add_exp_all_eq _ seqs hseq]
    dsimp only
    refine ⟨_, rfl, ?_⟩
    intro p hp a ha
    unfold lookup2
    rw [alistGet_map_value
      (fun _ cv => ((grouped.map Prod.snd).flatten.map
          (fun b => b.add_exp_syn_count ((alistGet seqs b.seq_id).getD []))).foldl
        (fun inner b => alistSet inner b.uid (mkGeneSNP b ((alistGet cv b.uid).getD 0))) [])
      cov_files hcf p hp]
    dsimp only
    have hnd' : (((grouped.map Prod.snd).flatten.map
        (fun b => b.add_exp_syn_count ((alistGet seqs b.seq_id).getD []))).map
          Annot.uid).Nodup := by
      rw [List.map_map]
      have : (Annot.uid ∘ fun b => b.add_exp_syn_count ((alistGet seqs b.seq_id).getD []))
          = Annot.uid := by
        funext b
        exact add_exp_uid b _
      rw [this]
      exact hnd
    have hmem : (a.add_exp_syn_count ((alistGet seqs a.seq_id).getD []))
        ∈ (grouped.map Prod.snd).flatten.map
          (fun b => b.add_exp_syn_count ((alistGet seqs b.seq_id).getD [])) :=
      List.mem_map_of_mem _ ha
    have := fold_set_get_mem
      (fun b => mkGeneSNP b ((alistGet p.2 b.uid).getD 0))
      ((grouped.map Prod.snd).flatten.map
        (fun b => b.add_exp_syn_count ((alistGet seqs b.seq_id).getD [])))
      [] hnd' _ hmem
    rw [add_exp_uid] at this
    rw [this]
    dsimp only
    rw [add_exp_uid]
  · intro anns seqs d₂ h hnd a ha s hs
    cases anns with
    | nil => simp [init_count_set] at h
    | cons a0 tail =>
      unfold init_count_set at h
      dsimp only at h
      rw [init_count_set_loop_unchanged _ _ _ _ h s a.uid ?_]
      · exact init_table_none _ s a.uid
      · intro c hc hcEq
        have hca : c = a := List.inj_on_of_nodup_map hnd hc ha hcEq
        rw [hca]
        exact hs

/-- C10 witness: the theorem applied to the fixture features, coverage files
and the init_count_set fixture table. -/
theorem claim_c10_witness :
    ((∀ a ∈ (fixGrouped.map Prod.snd).flatten, (alistGet [("c", fixSeq)] a.seq_id).isSome) ∧
      (((fixGrouped.map Prod.snd).flatten.map Annot.uid).Nodup) ∧
      ((fixCov.map Prod.fst).Nodup) ∧
      (∃ d, init_count_set_sample_files fixGrouped [("c", fixSeq)] fixCov = some d ∧
        ∀ p ∈ fixCov, ∀ a ∈ (fixGrouped.map Prod.snd).flatten,
          lookup2 d p.1 a.uid = some (mkGeneSNP
            (a.add_exp_syn_count ((alistGet [("c", fixSeq)] a.seq_id).getD []))
            ((alistGet p.2 a.uid).getD 0)))) ∧
    ((init_count_set [fixAnn, fixAnn2] [("c", fixSeq)] = some fixD2) ∧
      (([fixAnn, fixAnn2].map Annot.uid).Nodup) ∧
      ("s2" ∉ fixAnn2.sample_coverage.map Prod.fst) ∧
      lookup2 fixD2 "s2" fixAnn2.uid = none) :=
  ⟨⟨by decide, by decide, by decide,
    claim_c10.1 fixGrouped [("c", fixSeq)] fixCov (by decide) (by decide) (by decide)⟩,
   ⟨by decide, by decide, by decide,
    claim_c10.2 [fixAnn, fixAnn2] [("c", fixSeq)] fixD2 (by decide) (by decide)
      fixAnn2 (by simp) "s2" (by decide)⟩⟩

/-- C2: the source declares and reports counters for indel and low-frequency
rejections but never increments them: a stream holding one indel record and
one record whose only alternate allele (carried by a sample, differing from
the reference) has frequency below the minimum ends with every counter at
zero, in particular skip_indels = 0 and skip_af = 0. -/
theorem claim_c2 :
    fixRecIndel.is_indel = true ∧
    ((alistGet (dict_from_pairs (fixRecLowFreq.ALT.zip fixRecLowFreq.aaf)) "T").getD 0
      < mkRat 1 100) ∧
    (fixRecLowFreq.samples.map SampleInfo.gt_bases).contains (some "T") ∧
    parse_vcf 30 4 (mkRat 1 100) fixSids [("c", [fixAnn])] [("c", fixSeq)] fixSt0
      [fixRecIndel, fixRecLowFreq] = some ⟨fixD0, 0, 0, 0, 0, 0⟩ := by
  decide

/-- C4 counterexample: an indel variant on an annotated sequence with depth 3,
below the minimum of 4, is skipped without incrementing the depth counter, so
the claim quantified over every low-depth variant fails. -/
theorem claim_c4_cex :
    fixRecIndel.DP < 4 ∧ (alistGet [("c", [fixAnn])] fixRecIndel.CHROM).isSome ∧
    process_record 30 4 (mkRat 1 100) fixSids [("c", [fixAnn])] [("c", fixSeq)]
      fixSt0 fixRecIndel = some fixSt0 ∧ fixSt0.skip_dp = 0 := by
  decide

/-- C4 (amended): for every non-indel variant on an annotated reference
sequence whose total read depth is strictly below min_reads, parse_vcf
increments the depth-skip counter and leaves the table and every other
counter unchanged. -/
theorem claim_c4 (mq : ℚ) (mr : Nat) (mf : ℚ) (sids : List (String × String))
    (am : List (String × List Annot)) (seqs : List (String × List Char))
    (st : ParseState) (rec : VcfRecord)
    (h1 : (alistGet am rec.CHROM).isSome) (h2 : rec.is_indel = false)
    (h3 : rec.DP < mr) :
    process_record mq mr mf sids am seqs st rec
      = some { st with skip_dp := st.skip_dp + 1 } := by
  rcases Option.isSome_iff_exists.mp h1 with ⟨x, hx⟩
  simp [process_record, hx, h2, h3]

/-- C4 witness: the amended theorem applied to a concrete low-depth variant. -/
theorem claim_c4_witness :
    ((alistGet [("c", [fixAnn])] fixRecLowDP.CHROM).isSome ∧
      fixRecLowDP.is_indel = false ∧ fixRecLowDP.DP < 4) ∧
    process_record 30 4 (mkRat 1 100) fixSids [("c", [fixAnn])] [("c", fixSeq)]
      fixSt0 fixRecLowDP = some { fixSt0 with skip_dp := fixSt0.skip_dp + 1 } :=
  ⟨⟨by decide, by decide, by decide⟩,
   claim_c4 30 4 (mkRat 1 100) fixSids [("c", [fixAnn])] [("c", fixSeq)]
     fixSt0 fixRecLowDP (by decide) (by decide) (by decide)⟩

/-- C5: a variant whose reference sequence is absent from the annotation
mapping is skipped silently: the record loop returns the state unchanged (no
error, no table mutation, no counter change) and processing continues with
the remaining records. -/
theorem claim_c5 (mq : ℚ) (mr : Nat) (mf : ℚ) (sids : List (String × String))
    (am : List (String × List Annot)) (seqs : List (String × List Char))
    (st : ParseState) (rec : VcfRecord) (rest : List VcfRecord)
    (h : alistGet am rec.CHROM = none) :
    process_record mq mr mf sids am seqs st rec = some st ∧
    parse_vcf mq mr mf sids am seqs st (rec :: rest)
      = parse_vcf mq mr mf sids am seqs st rest := by
  have h1 : process_record mq mr mf sids am seqs st rec = some st := by
    simp [process_record, h]
  refine ⟨h1, ?_⟩
  simp [parse_vcf, h1]

/-- C5 witness: the theorem applied to a variant on the unannotated sequence z. -/
theorem claim_c5_witness :
    (alistGet [("c", [fixAnn])] fixRecOff.CHROM = none) ∧
    (process_record 30 4 (mkRat 1 100) fixSids [("c", [fixAnn])] [("c", fixSeq)]
        fixSt0 fixRecOff = some fixSt0 ∧
      parse_vcf 30 4 (mkRat 1 100) fixSids [("c", [fixAnn])] [("c", fixSeq)]
        fixSt0 [fixRecOff, fixRec]
      = parse_vcf 30 4 (mkRat 1 100) fixSids [("c", [fixAnn])] [("c", fixSeq)]
        fixSt0 [fixRec]) :=
  ⟨by decide,
   claim_c5 30 4 (mkRat 1 100) fixSids [("c", [fixAnn])] [("c", fixSeq)]
     fixSt0 fixRecOff [fixRec] (by decide)⟩

/-- C8: the multi-file loop of the vcf_alt command threads the table through
all files, but the counters it reports after the last file are twice the
counts of the last file alone, not the sum over the files: with a first file
yielding 1 accepted SNP and a second yielding 2, the loop reports 4 instead
of 3. -/
theorem claim_c8 :
    parse_alt_loop 30 4 (mkRat 1 100) fixSids [("c", [fixAnn2])] [("c", fixSeq)]
      [] (0, 0, 0, 0, 0) [[fixRec], [fixRec, fixRec]] = some ([], (4, 0, 0, 0, 0)) ∧
    (parse_vcf 30 4 (mkRat 1 100) fixSids [("c", [fixAnn2])] [("c", fixSeq)] fixStE
        [fixRec]).map (fun st => st.accepted_snps) = some 1 ∧
    (parse_vcf 30 4 (mkRat 1 100) fixSids [("c", [fixAnn2])] [("c", fixSeq)] fixStE
        [fixRec, fixRec]).map (fun st => st.accepted_snps) = some 2 ∧
    (4 : Nat) ≠ 1 + 2 := by
  decide

/-- C6: a sample is recorded as carrying an alternate allele only if some
genotype call of that sample is present, the called base differs from the
reference allele, and the frequency of the allele is at least min_freq; a
call equal to the reference or missing is never recorded and a
below-minimum-frequency allele contributes no (sample, allele) record. -/
theorem claim_c6 (rec : VcfRecord) (mf : ℚ) (sids : List (String × String))
    (als' : List (String × List String))
    (h : record_samples rec.REF (dict_from_pairs (rec.ALT.zip rec.aaf)) mf sids
      rec.samples (rec.ALT.foldl (fun d al => alistSet d al []) []) = some als') :
    ∀ c s, s ∈ (alistGet als' c).getD [] →
      ∃ si ∈ rec.samples, ∃ gt, si.gt_bases = some gt ∧ c ∈ gt_parts gt ∧
        c ≠ rec.REF ∧ mf ≤ (alistGet (dict_from_pairs (rec.ALT.zip rec.aaf)) c).getD 0 ∧
        alistGet sids si.sample = some s := by
  intro c s hmem
  rcases record_samples_mem _ _ _ _ _ _ _ h c s hmem with hl | hr
  · exfalso
    obtain ⟨q, hq, _, hsmem⟩ := mem_getD_exists _ c s hl
    have hqnil := foldl_set_nil_values rec.ALT [] (by simp) q hq
    rw [hqnil] at hsmem
    simp at hsmem
  · obtain ⟨si, hsi, gt, hgt, hc, hne, hnlt, hsid⟩ := hr
    exact ⟨si, hsi, gt, hgt, hc, hne, not_lt.mp hnlt, hsid⟩

/-- C6 witness: the theorem applied to the fixture variant, whose computed
alleles_sample dictionary records sample s1 under allele G. -/
theorem claim_c6_witness :
    (record_samples fixRec.REF (dict_from_pairs (fixRec.ALT.zip fixRec.aaf))
      (mkRat 1 100) fixSids fixRec.samples
      (fixRec.ALT.foldl (fun d al => alistSet d al []) []) = some [("G", ["s1"])]) ∧
    (∀ c s, s ∈ (alistGet [("G", ["s1"])] c).getD [] →
      ∃ si ∈ fixRec.samples, ∃ gt, si.gt_bases = some gt ∧ c ∈ gt_parts gt ∧
        c ≠ fixRec.REF ∧
        mkRat 1 100 ≤ (alistGet (dict_from_pairs (fixRec.ALT.zip fixRec.aaf)) c).getD 0 ∧
        alistGet fixSids si.sample = some s) :=
  ⟨by decide, claim_c6 fixRec (mkRat 1 100) fixSids [("G", ["s1"])] (by decide)⟩

/-- C7 counterexample: a gene map row with a gene id and no external ids is
read by read_gene_map_default as the gene mapped to the empty set, while its
expansion into pairs is empty, so read_gene_map_two_columns lacks the gene
entirely: the two dictionaries differ. -/
theorem claim_c7_cex :
    alistGet (read_gene_map_default [("g1", [])]) "g1" = some (∅ : Finset String) ∧
    alistGet (read_gene_map_two_columns (expand_rows [("g1", [])])) "g1" = none := by
  decide

/-- C7 (amended): for every gene map in which each gene id occupies exactly
one row of the one-row-per-gene format and every row lists at least one
external id, reading the rows with read_gene_map_default yields the same
dictionary as reading the expansion into one (gene id, external id) pair per
row with read_gene_map_two_columns. -/
theorem claim_c7 (rows : List (String × List String))
    (hnd : (rows.map Prod.fst).Nodup) (hne : ∀ r ∈ rows, r.2 ≠ []) :
    read_gene_map_default rows = read_gene_map_two_columns (expand_rows rows) :=
  gene_map_equiv_aux rows [] hnd (fun _ _ => rfl) hne

/-- C7 witness: the amended theorem applied to a concrete two-row gene map. -/
theorem claim_c7_witness :
    (([("g1", ["a", "b"]), ("g2", ["a"])].map Prod.fst).Nodup ∧
      (∀ r ∈ [("g1", ["a", "b"]), ("g2", ["a"])], r.2 ≠ ([] : List String))) ∧
    read_gene_map_default [("g1", ["a", "b"]), ("g2", ["a"])]
      = read_gene_map_two_columns (expand_rows [("g1", ["a", "b"]), ("g2", ["a"])]) :=
  ⟨⟨by decide, by decide⟩,
   claim_c7 [("g1", ["a", "b"]), ("g2", ["a"])] (by decide) (by decide)⟩

/-- C9 counterexample: with the supplied sample list s1, s2, a VCF whose
sample names are a, b (same count, different names) and a second feature
whose coverage names are only s1, the validation of the vcf command reports
no error at all, and the mismatching feature is then used by init_count_set
to populate the table, refuting the claim that every such mismatch is fatal
before processing. -/
theorem claim_c9_cex :
    (["a", "b"] : List String) ≠ ["s1", "s2"] ∧
    same_set (fixAnn2.sample_coverage.map Prod.fst) ["s1", "s2"] = false ∧
    parse_command_checks ["a", "b"] ["s1", "s2"] [fixAnn, fixAnn2] "CDS"
      = Except.ok [fixAnn, fixAnn2] ∧
    (init_count_set [fixAnn, fixAnn2] [("c", fixSeq)]).isSome ∧
    (lookup2 ((init_count_set [fixAnn, fixAnn2] [("c", fixSeq)]).getD []) "s1" "u2").isSome := by
  decide

/-- C9 (amended): the vcf command validation checks exactly two conditions
before processing: the count of VCF sample names against the supplied count
(exit status 1 on mismatch; the names themselves are not compared), and the
coverage sample-name set of the first feature of the requested type against
the supplied list (exit status 2 on mismatch); features after the first are
not checked. -/
theorem claim_c9 (vs sids : List String) (anns : List Annot) (feat : String)
    (a0 : Annot) (rest : List Annot)
    (hfil : anns.filter (fun a => a.feat_type == feat) = a0 :: rest) :
    parse_command_checks vs sids anns feat =
      if vs.length ≠ sids.length then
        Except.error (CmdError.exit_script "The number of sample names is wrong" 1)
      else if same_set (a0.sample_coverage.map Prod.fst) sids then Except.ok (a0 :: rest)
      else Except.error (CmdError.exit_script "Sample names are wrong" 2) := by
  unfold parse_command_checks
  by_cases hlen : vs.length ≠ sids.length
  · rw [if_pos hlen, if_pos hlen]
  · rw [if_neg hlen, if_neg hlen]
    rw [load_ann_loop_true feat sids anns [], hfil]
    cases hss : same_set (a0.sample_coverage.map Prod.fst) sids with
    | true => simp [hss]
    | false => simp [hss]

/-- C9 witness: the amended theorem applied to the fixture features. -/
theorem claim_c9_witness :
    ([fixAnn, fixAnn2].filter (fun a => a.feat_type == "CDS") = [fixAnn, fixAnn2]) ∧
    (parse_command_checks ["a", "b"] ["s1", "s2"] [fixAnn, fixAnn2] "CDS"
      = if (["a", "b"] : List String).length ≠ (["s1", "s2"] : List String).length then
          Except.error (CmdError.exit_script "The number of sample names is wrong" 1)
        else if same_set (fixAnn.sample_coverage.map Prod.fst) ["s1", "s2"] then
          Except.ok [fixAnn, fixAnn2]
        else Except.error (CmdError.exit_script "Sample names are wrong" 2)) :=
  ⟨by decide,
   claim_c9 ["a", "b"] ["s1", "s2"] [fixAnn, fixAnn2] "CDS" fixAnn [fixAnn2] (by decide)⟩
